import Mathlib

/-
Verification development for the pcoq repository
(generation → sanitization → verification → audit pipeline).

The Python sources are shallowly embedded as executable Lean functions:

* `src/pco_framework/dashboard.py`:
  - `PCODashboard._clean_coq_code`      → `cleanCoqCode`
  - code-fence stripping in `call_llm`  → `fenceStrip`
  - the two `re.sub` repair passes      → `subP1`, `subP2`
  - unterminated-comment repair         → `fixComments`
  - proposition-name extraction         → `extractProposition`
  - the Claude model-fallback loop      → `claudeLoop` / `callClaude`
  - `execute_pipeline`                  → `executePipeline`
  - `record_to_blockchain`              → `recordToBlockchain`
* `src/pco_framework/audit.py`:
  - `audit_record`                      → `auditRecord`
* `src/coq_code/traffic/run_proof.py`:
  - `run_coq`                           → `runCoq`

Strings are handled at the `List Char` level with structural recursion so
that every definition evaluates inside the kernel.  Python regular
expressions are hand-compiled into deterministic matchers that reproduce
the backtracking behaviour of the concrete patterns used by the source
(verified against CPython's `re` on the inputs appearing in the theorems).
SHA-256 is modelled as an abstract digest function `H : String → String`;
collision-resistance is modelled as an injectivity hypothesis where a
claim needs digests of distinct inputs to differ.
-/

/-- Python whitespace class `\s` (ASCII part), also used by `str.strip()`. -/
def pyWs (c : Char) : Bool :=
  c == ' ' || c == '\t' || c == '\n' || c == '\r' || c.toNat == 11 || c.toNat == 12

/-- Python word class `\w` (ASCII part). -/
def pyWord (c : Char) : Bool :=
  c.isAlphanum || c == '_'

/-- ASCII lower-casing of one character, as Python `str.lower` acts on ASCII. -/
def lowerChar (c : Char) : Char :=
  if 'A' ≤ c && c ≤ 'Z' then Char.ofNat (c.toNat + 32) else c

/-- ASCII lower-casing of a character list. -/
def toLowerL (l : List Char) : List Char :=
  l.map lowerChar

/-- `str.strip()` on a character list: drop whitespace from both ends. -/
def stripL (l : List Char) : List Char :=
  ((l.dropWhile pyWs).reverse.dropWhile pyWs).reverse

/-- Does `pat` occur at the head of `l`? -/
def startsL : List Char → List Char → Bool
  | [], _ => true
  | _ :: _, [] => false
  | p :: ps, c :: cs => p == c && startsL ps cs

/-- Python's substring test `pat in l` (empty pattern occurs everywhere). -/
def containsL : List Char → List Char → Bool
  | [], pat => pat.isEmpty
  | c :: rest, pat => startsL pat (c :: rest) || containsL rest pat

/-- Python `str.split(sep)` for a non-empty separator, with fuel
(`fuel = length of the remaining input + 1` always suffices because every
step consumes at least one character). -/
def splitSubAux (sep : List Char) : Nat → List Char → List Char → List (List Char)
  | 0, acc, l => [acc.reverse ++ l]
  | _ + 1, acc, [] => [acc.reverse]
  | fuel + 1, acc, c :: rest =>
    if startsL sep (c :: rest) then
      acc.reverse :: splitSubAux sep fuel [] (List.drop sep.length (c :: rest))
    else
      splitSubAux sep fuel (c :: acc) rest

/-- Python `str.split(sep)` on character lists. -/
def splitSubL (l sep : List Char) : List (List Char) :=
  splitSubAux sep (l.length + 1) [] l

/-- Join character lists with a separator (inverse of split, used for
`'\n'.join(...)`). -/
def joinWithL (sep : List Char) : List (List Char) → List Char
  | [] => []
  | [x] => x
  | x :: y :: rest => x ++ sep ++ joinWithL sep (y :: rest)

/-- String-level wrapper for the substring test. -/
def containsSub (s pat : String) : Bool :=
  containsL s.data pat.data

/-- String-level `str.strip()`. -/
def pyStrip (s : String) : String :=
  ⟨stripL s.data⟩

/-- Match a literal, returning the remainder. -/
def litL : List Char → List Char → Option (List Char)
  | [], l => some l
  | _ :: _, [] => none
  | p :: ps, c :: cs => if p == c then litL ps cs else none

/-- Regex `\s+` (greedy, followed in every use by a non-whitespace literal,
so maximal munch is faithful). -/
def ws1L : List Char → Option (List Char)
  | [] => none
  | c :: cs => if pyWs c then some (cs.dropWhile pyWs) else none

/-- Regex `\d+` (greedy, followed in its only use by a non-digit literal). -/
def digits1L : List Char → Option (List Char)
  | [] => none
  | c :: cs => if c.isDigit then some (cs.dropWhile Char.isDigit) else none

/-- `re.match(r'^File\s+\d+:', stripped)` from `_clean_coq_code`. -/
def isFileHeader (s : List Char) : Bool :=
  match (((litL "File".data s).bind ws1L).bind digits1L) with
  | some (':' :: _) => true
  | _ => false

/-- `re.match(r'^[A-Za-z\s]+\.v\s*$', stripped)` from `_clean_coq_code`.
On an already-stripped line (no trailing whitespace) the pattern matches
exactly the strings `P ++ ".v"` with `P` non-empty and all
letters/whitespace (the character class contains no dot, so the final
`.v` is the only dot). -/
def isDotVHeader (s : List Char) : Bool :=
  let n := s.length
  if n < 3 then false
  else (s.drop (n - 2) == ['.', 'v']) && (s.take (n - 2)).all (fun c => c.isAlpha || pyWs c)

/-- Group 1 of `(.+?)\.?\s*$` applied to a string with no trailing
whitespace: the lazy group stops at the earliest position that lets the
optional dot and end-anchor match, i.e. it is the whole tail unless the
tail has length ≥ 2 and ends in a dot, in which case the final dot is
left to `\.?`. -/
def reGroupDot (tail : List Char) : List Char :=
  if tail.length ≥ 2 && tail.getLast? == some '.' then tail.dropLast else tail

/-- `re.match(r'^From\s+Coq\s+Require\s+Import\s+(.+?)\.?\s*$', stripped)`
from `_clean_coq_code`, returning `group(1).strip()`. -/
def fromCoqMatchL (s : List Char) : Option (List Char) := do
  let r ← litL "From".data s
  let r ← ws1L r
  let r ← litL "Coq".data r
  let r ← ws1L r
  let r ← litL "Require".data r
  let r ← ws1L r
  let r ← litL "Import".data r
  let r ← ws1L r
  if r.isEmpty then none else some (stripL (reGroupDot r))

/-- `re.match(r'^Require\s+Import\s+Coq\.(.+?)\.?\s*$', stripped)`
from `_clean_coq_code`, returning `group(1).strip()`. -/
def oldRequireMatchL (s : List Char) : Option (List Char) := do
  let r ← litL "Require".data s
  let r ← ws1L r
  let r ← litL "Import".data r
  let r ← ws1L r
  let r ← litL "Coq.".data r
  if r.isEmpty then none else some (stripL (reGroupDot r))

/-- The `coq_keywords` list of `_clean_coq_code` (line-start keywords). -/
def cleanKeywords : List (List Char) :=
  ["Require".data, "Import".data, "Open".data, "Inductive".data, "Definition".data,
   "Fixpoint".data, "Theorem".data, "Lemma".data, "Example".data, "CoInductive".data,
   "Record".data, "Structure".data, "Module".data, "Section".data, "Variable".data,
   "Axiom".data, "Parameter".data, "Hypothesis".data, "From".data, ['(', '*']]

/-- `stripped and any(stripped.startswith(kw) for kw in coq_keywords)`. -/
def lineStartsKw (stripped : List Char) : Bool :=
  !stripped.isEmpty && cleanKeywords.any (fun kw => startsL kw stripped)

/-- Per-line body of `_clean_coq_code`'s second loop: drop header lines,
rewrite the two anchored deprecated-import forms preserving the line's
leading whitespace, keep everything else. -/
def cleanLine (line : List Char) : Option (List Char) :=
  let stripped := stripL line
  if isFileHeader stripped then none
  else if isDotVHeader stripped then none
  else
    let indent := line.takeWhile pyWs
    match fromCoqMatchL stripped with
    | some mp => some (indent ++ "From Stdlib Require Import ".data ++ mp ++ ['.'])
    | none =>
      match oldRequireMatchL stripped with
      | some mp => some (indent ++ "From Stdlib Require Import ".data ++ mp ++ ['.'])
      | none => some line

/-- `PCODashboard._clean_coq_code` (dashboard.py lines 583-647): trim the
preamble up to the first keyword-starting line, filter header lines,
rewrite anchored deprecated imports, join and strip. -/
def cleanCoqCodeL (code : List Char) : List Char :=
  let lines := splitSubL code ['\n']
  let start := (lines.findIdx? (fun l => lineStartsKw (stripL l))).getD 0
  let kept := (lines.drop start).filterMap cleanLine
  stripL (joinWithL ['\n'] kept)

/-- Code-fence extraction from `call_llm` (dashboard.py lines 1198-1203). -/
def fenceStripL (raw : List Char) : List Char :=
  let fcoq : List Char := "```coq".data
  let f3 : List Char := "```".data
  if containsL raw fcoq then
    stripL ((splitSubL ((splitSubL raw fcoq).getD 1 []) f3).getD 0 [])
  else if containsL raw f3 then
    stripL ((splitSubL ((splitSubL raw f3).getD 1 []) f3).getD 0 [])
  else raw

/-- A character of a module-path segment: regex class `[^\s.]`. -/
def segChar (c : Char) : Bool :=
  !pyWs c && c != '.'

/-- Continuation of the matcher for
`Require\s+Import\s+Coq\.([^\s.]+(?:\.[^\s.]+)*)\s*\.` after the group's
first segment: greedily absorb further `\.[^\s.]+` segments, then match
`\s*\.`; if that fails after the greedy extension the engine backtracks by
releasing the last segment, whose leading dot then satisfies the final
`\.` (this is exactly CPython's backtracking order for this pattern).
Returns the group and the remainder after the consumed final dot.  The
fuel argument only serves structural recursion: every recursive step
consumes at least two characters of the list, so any fuel of at least the
list length plus one never runs out. -/
def p1Extras : Nat → List Char → List Char → Option (List Char × List Char)
  | 0, _, _ => none
  | fuel + 1, group, '.' :: rest =>
    let seg := rest.takeWhile segChar
    if seg.isEmpty then some (group, rest)
    else
      match p1Extras fuel (group ++ '.' :: seg) (rest.drop seg.length) with
      | some res => some res
      | none => some (group, rest)
  | _ + 1, group, c :: rest =>
    if pyWs c then
      match (c :: rest).dropWhile pyWs with
      | '.' :: rest2 => some (group, rest2)
      | _ => none
    else none
  | _ + 1, _, [] => none

/-- Try the full pattern
`Require\s+Import\s+Coq\.([^\s.]+(?:\.[^\s.]+)*)\s*\.` at the head of `l`;
returns the captured group and the remainder after the match. -/
def p1At (l : List Char) : Option (List Char × List Char) := do
  let r ← litL "Require".data l
  let r ← ws1L r
  let r ← litL "Import".data r
  let r ← ws1L r
  let r ← litL "Coq.".data r
  let seg1 := r.takeWhile segChar
  if seg1.isEmpty then none
  else p1Extras (r.length + 1) seg1 (r.drop seg1.length)

/-- `re.sub` scan for the first pattern: leftmost match, replace with
`From Stdlib Require Import \1.`, continue after the match without
rescanning the replacement.  Fuel is the input length; every step
consumes at least one input character. -/
def subP1Aux : Nat → List Char → List Char
  | 0, l => l
  | _ + 1, [] => []
  | fuel + 1, c :: rest =>
    match p1At (c :: rest) with
    | some (group, after) =>
      "From Stdlib Require Import ".data ++ group ++ '.' :: subP1Aux fuel after
    | none => c :: subP1Aux fuel rest

/-- First `re.sub` of `call_llm` (dashboard.py lines 1212-1216). -/
def subP1L (l : List Char) : List Char :=
  subP1Aux l.length l

/-- Matcher for `From\s+Coq\s+Require\s+Import` at the head of `l`. -/
def p2At (l : List Char) : Option (List Char) := do
  let r ← litL "From".data l
  let r ← ws1L r
  let r ← litL "Coq".data r
  let r ← ws1L r
  let r ← litL "Require".data r
  let r ← ws1L r
  litL "Import".data r

/-- `re.sub` scan for the second pattern (replacement
`From Stdlib Require Import`). -/
def subP2Aux : Nat → List Char → List Char
  | 0, l => l
  | _ + 1, [] => []
  | fuel + 1, c :: rest =>
    match p2At (c :: rest) with
    | some after => "From Stdlib Require Import".data ++ subP2Aux fuel after
    | none => c :: subP2Aux fuel rest

/-- Second `re.sub` of `call_llm` (dashboard.py lines 1219-1223). -/
def subP2L (l : List Char) : List Char :=
  subP2Aux l.length l

/-- Python `coq_code.count('(*')`: non-overlapping greedy count (the
pattern cannot overlap itself, so this equals the number of occurrence
positions). -/
def countOpen : List Char → Nat
  | '(' :: '*' :: rest => countOpen rest + 1
  | _ :: rest => countOpen rest
  | [] => 0

/-- Python `coq_code.count('*)')`. -/
def countClose : List Char → Nat
  | '*' :: ')' :: rest => countClose rest + 1
  | _ :: rest => countClose rest
  | [] => 0

/-- `'*)' * k`. -/
def closers : Nat → List Char
  | 0 => []
  | k + 1 => '*' :: ')' :: closers k

/-- Unterminated-comment repair from `call_llm` (dashboard.py lines
1226-1230): if open comments exceed closers, append a newline and the
missing closers. -/
def fixCommentsL (l : List Char) : List Char :=
  let o := countOpen l
  let c := countClose l
  if c < o then l ++ '\n' :: closers (o - c) else l

/-- The full sanitization transform applied to raw model output in
`call_llm` (dashboard.py lines 1197-1230): fence stripping, then
`_clean_coq_code`, then the two `re.sub` repair passes, then comment
repair. -/
def sanitizeL (raw : List Char) : List Char :=
  fixCommentsL (subP2L (subP1L (cleanCoqCodeL (fenceStripL raw))))

/-- String-level sanitizer. -/
def sanitize (s : String) : String :=
  ⟨sanitizeL s.data⟩

/-- One alternative of `(Theorem|Definition|Lemma)\s+(\w+)`: keyword, then
`\s+`, then the greedy word group. -/
def propKwTry (kw : List Char) (l : List Char) : Option (List Char) := do
  let r ← litL kw l
  let r ← ws1L r
  let w := r.takeWhile pyWord
  if w.isEmpty then none else some w

/-- Alternatives tried in the regex's left-to-right order at one position. -/
def propAt (l : List Char) : Option (List Char) :=
  match propKwTry "Theorem".data l with
  | some g => some g
  | none =>
    match propKwTry "Definition".data l with
    | some g => some g
    | none => propKwTry "Lemma".data l

/-- `re.search`: leftmost position wins. -/
def propSearch : List Char → Option (List Char)
  | [] => none
  | c :: rest =>
    match propAt (c :: rest) with
    | some g => some g
    | none => propSearch rest

/-- Proposition-name extraction from `call_llm` (dashboard.py lines
1233-1234): group 2 of the first `(Theorem|Definition|Lemma)\s+(\w+)`
match, with the literal fallback `"unknown_proposition"`. -/
def extractProposition (code : String) : String :=
  match propSearch code.data with
  | some g => ⟨g⟩
  | none => "unknown_proposition"

/-- Outcome of `subprocess.run` on the verifier, as observed by the
caller: normal completion with an exit code and captured output, or one
of the exception classes handled in `execute_pipeline`. -/
inductive ProcResult where
  | completed (returncode : Int) (stdout : String) (stderr : String)
  | timeoutExpired
  | fileNotFound
  | otherError (msg : String)
deriving DecidableEq

/-- Verification acceptance in `execute_pipeline` (dashboard.py lines
540-581): `verification_passed` is set exactly when the subprocess
completed with return code 0; every exception path leaves it false.
The captured stdout/stderr are logged but do not influence acceptance. -/
def pipelineVerifyPassed : ProcResult → Bool
  | .completed rc _ _ => rc == 0
  | _ => false

/-- `run_coq` from src/coq_code/traffic/run_proof.py: concatenates stdout
and stderr and fails on a non-zero exit code or on the literal marker
`"Error:"` anywhere in the combined output. -/
def runCoq (returncode : Int) (stdout stderr : String) : String × String :=
  let output := stdout ++ stderr
  if returncode != 0 || containsSub output "Error:" then ("FAIL", output)
  else ("PASS", output)

/-- The acceptance rule asserted by the specification (claim C2), stated
from the spec's words for comparison with the code: passed iff exit code
0 and standard error free of the internal-failure marker. -/
def specPassedC2 (returncode : Int) (stderr : String) : Bool :=
  returncode == 0 && !containsSub stderr "Error:"

/-- Result of one model attempt as surfaced to the fallback loop in
`call_llm`: the response text, or the stringified exception. -/
inductive LlmAttempt where
  | ok (text : String)
  | err (msg : String)
deriving DecidableEq

/-- Error classification of the Claude fallback loop (dashboard.py lines
766-781), applied to the lower-cased exception text in the if/elif order
of the source. -/
inductive ErrClass where
  | softNotFound
  | softConfig
  | hardAuth
  | softOther
deriving DecidableEq

/-- `error_str = str(model_error).lower()` followed by the substring
checks of dashboard.py lines 768-781. -/
def classifyError (msg : String) : ErrClass :=
  let e : List Char := toLowerL msg.data
  if containsL e "not_found".data || containsL e "404".data then .softNotFound
  else if containsL e "max_tokens".data || containsL e "400".data then .softConfig
  else if containsL e "authentication".data || containsL e "401".data then .hardAuth
  else .softOther

/-- Result of the whole fallback loop: success on some model, an
immediate abort on an authentication error (the `raise` at dashboard.py
line 777), or exhaustion of every candidate (the `for`-`else` at lines
782-794).  `attempted` is the `attempted_models` list, which records
failed attempts only. -/
inductive LoopResult where
  | success (model : String) (text : String) (attempted : List String)
  | authAbort (model : String) (msg : String) (attempted : List String)
  | exhausted (attempted : List String) (lastError : Option String)
deriving DecidableEq

/-- The `for model, max_tokens in models_to_try` loop of `call_llm`
(dashboard.py lines 740-794).  `oracle` gives each model's attempt
outcome; `attempted` and `lastErr` are the accumulators of the source. -/
def claudeLoop (oracle : String → LlmAttempt) :
    List (String × Nat) → List String → Option String → LoopResult
  | [], attempted, lastErr => .exhausted attempted lastErr
  | (model, _) :: rest, attempted, _ =>
    match oracle model with
    | .ok text => .success model text attempted
    | .err msg =>
      match classifyError msg with
      | .hardAuth => .authAbort model msg (attempted ++ [model])
      | _ => claudeLoop oracle rest (attempted ++ [model]) (some msg)

/-- The `models_to_try` table of `call_llm` (dashboard.py lines 725-735). -/
def modelsToTry : List (String × Nat) :=
  [("claude-3-5-sonnet-20241022", 8000),
   ("claude-3-5-sonnet-latest", 8000),
   ("claude-3-5-sonnet-20240620", 8000),
   ("claude-3-sonnet-20240229", 4096),
   ("claude-3-opus-20240229", 4096),
   ("claude-3-haiku-20240307", 4096),
   ("claude-2.1", 4096),
   ("claude-2.0", 4096),
   ("claude-instant-1.2", 4096)]

/-- The names of the declared candidates, in declared order. -/
def modelNames : List String :=
  modelsToTry.map Prod.fst

/-- One generation call against the Claude provider. -/
def callClaude (oracle : String → LlmAttempt) : LoopResult :=
  claudeLoop oracle modelsToTry [] none

/-- A record of `blockchain.json` as written by `record_to_blockchain`
(dashboard.py lines 1271-1285).  The two document fields are present only
when a document was loaded. -/
structure LedgerRecord where
  timestamp : String
  use_case : String
  proposition : String
  verifier : String
  hash : String
  proof_file : String
  verification_status : String
  document_hash : Option String := none
  document_type : Option String := none
deriving DecidableEq

/-- State of a file on disk as seen through `Path.exists` plus `open`:
missing, present but unreadable (open raises), or readable content. -/
inductive FileState where
  | absent
  | unreadable
  | readable (content : String)
deriving DecidableEq

/-- The dashboard state touched by the pipeline and the ledger
(`PCODashboard.__init__`, dashboard.py lines 134-140). -/
structure DashState where
  blockchain : List LedgerRecord
  verification_passed : Bool
  current_proof_file : Option String
  current_proposition : String
  document_hash : Option String := none
  document_type : Option String := none
deriving DecidableEq

/-- Outcome of `record_to_blockchain`: rejected by the guard at
dashboard.py lines 1245-1247, failed inside the `try` (the artifact could
not be read back, lines 1300-1302), or recorded. -/
inductive RecordOutcome where
  | notVerified
  | sourceError
  | recorded (r : LedgerRecord)
deriving DecidableEq

/-- `PCODashboard.record_to_blockchain` (dashboard.py lines 1243-1302):
guard on a verified artifact, re-read the artifact bytes, digest
`content ++ "|||" ++ proposition` with `H` (modelling
`hashlib.sha256(...).hexdigest()`), append the record, save.  On a read
failure the exception handler leaves the ledger untouched. -/
def recordToBlockchain (H : String → String) (st : DashState)
    (fs : String → FileState) (timestamp use_case verifier : String) :
    DashState × RecordOutcome :=
  if !st.verification_passed then (st, .notVerified)
  else
    match st.current_proof_file with
    | none => (st, .notVerified)
    | some pf =>
      match fs pf with
      | .readable content =>
        let h := H (content ++ "|||" ++ st.current_proposition)
        let r : LedgerRecord :=
          { timestamp := timestamp, use_case := use_case,
            proposition := st.current_proposition, verifier := verifier,
            hash := h, proof_file := pf, verification_status := "PASS",
            document_hash := st.document_hash, document_type := st.document_type }
        ({ st with blockchain := st.blockchain ++ [r] }, .recorded r)
      | _ => (st, .sourceError)

/-- A raw ledger record as `audit_record` sees it: a JSON object whose
keys may be missing (`none` models an absent key, whose access raises
`KeyError` into the surrounding `except`). -/
structure RawRecord where
  proof_file : Option String
  proposition : Option String
  hash : Option String
deriving DecidableEq

/-- View of a committed record as a raw audit input. -/
def toRaw (r : LedgerRecord) : RawRecord :=
  { proof_file := some r.proof_file, proposition := some r.proposition,
    hash := some r.hash }

/-- The fixed success message of `audit_record`. -/
def auditPassMsg : String :=
  "Hash matches - proof is authentic"

/-- The hash-mismatch message of `audit_record`. -/
def auditMismatchMsg (stored computed : String) : String :=
  "Hash mismatch!\n  Stored:   " ++ stored ++ "\n  Computed: " ++ computed

/-- `audit_record` from src/pco_framework/audit.py (lines 21-46): check
existence, re-read the artifact, recompute the digest with the identical
`"|||"` separator, compare.  Every exception inside the `try` (missing
key, unreadable file) is caught and mapped to a FAIL verdict carrying the
error text (modelled abstractly for OS-generated messages). -/
def auditRecord (H : String → String) (fs : String → FileState)
    (r : RawRecord) : String × String :=
  match r.proof_file with
  | none => ("FAIL", "Error: " ++ "'proof_file'")
  | some pf =>
    match fs pf with
    | .absent => ("FAIL", "Proof file not found: " ++ pf)
    | .unreadable => ("FAIL", "Error: " ++ "unreadable file: " ++ pf)
    | .readable content =>
      match r.proposition with
      | none => ("FAIL", "Error: " ++ "'proposition'")
      | some prop =>
        let computed := H (content ++ "|||" ++ prop)
        match r.hash with
        | none => ("FAIL", "Error: " ++ "'hash'")
        | some stored =>
          if computed == stored then ("PASS", auditPassMsg)
          else ("FAIL", auditMismatchMsg stored computed)

/-- The pipeline stages that actually execute in one run. -/
inductive Stage where
  | generation
  | verification
deriving DecidableEq

/-- Terminal result of `execute_pipeline`. -/
inductive PipeOutcome where
  | noApiKey
  | genFailed (msg : String)
  | verPass
  | verFail
  | verTimeout
  | verToolNotFound
  | verError (msg : String)
deriving DecidableEq

/-- `PCODashboard.execute_pipeline` (dashboard.py lines 472-581):
reset `verification_passed`, bail out without generating when no API key
is configured, call the generator, and only on generation success save
the artifact and run the verifier; `verification_passed` becomes true
exactly on exit code 0.  The returned list records which stages ran. -/
def executePipeline (st : DashState) (apiKey : String)
    (gen : Except String (String × String)) (proofPath : String)
    (ver : ProcResult) : DashState × List Stage × PipeOutcome :=
  let st0 := { st with verification_passed := false }
  if apiKey = "" then (st0, [], .noApiKey)
  else
    match gen with
    | .error e => (st0, [.generation], .genFailed e)
    | .ok (_, prop) =>
      let st1 := { st0 with current_proposition := prop, current_proof_file := some proofPath }
      match ver with
      | .completed rc _ _ =>
        if rc == 0 then
          ({ st1 with verification_passed := true },
           [.generation, .verification], .verPass)
        else (st1, [.generation, .verification], .verFail)
      | .timeoutExpired => (st1, [.generation, .verification], .verTimeout)
      | .fileNotFound => (st1, [.generation, .verification], .verToolNotFound)
      | .otherError m => (st1, [.generation, .verification], .verError m)

/-- String-level wrapper for the first `re.sub` pass. -/
def subP1 (s : String) : String :=
  ⟨subP1L s.data⟩

/-- String-level wrapper for the unterminated-comment repair pass. -/
def fixComments (s : String) : String :=
  ⟨fixCommentsL s.data⟩

/-- The raw model output of the specification's sanitizer scenario. -/
def c4Raw : String :=
  "Explanation...\n```\nDeclare Foo.\n```"

/-- The same scenario with a declaration keyword the code actually
recognises for name extraction. -/
def c4RawDefn : String :=
  "Explanation...\n```\nDefinition Foo.\n```"

/-- An input on which the deprecated-import rewriting produces a new
deprecated import: the `\s+` in the pattern spans the newline, the
module path itself starts with `Coq.`, and the single `re.sub` pass does
not rescan its replacement. -/
def c5Input : String :=
  "Require Import\nCoq.Coq.X."

/-- Oracle for the C3 witness: the first candidate model fails with an
authentication error. -/
def c3Oracle : String → LlmAttempt := fun m =>
  if m = "claude-3-5-sonnet-20241022" then .err "HTTP 401: authentication_error" else .ok "ok"

/-- Digest function for witnesses: the identity is injective, standing in
for a collision-free hash. -/
def idH : String → String := fun s => s

/-- Concrete dashboard state for the ledger witnesses. -/
def wSt : DashState :=
  { blockchain := [], verification_passed := true,
    current_proof_file := some "pco_storage/p.v", current_proposition := "Foo" }

/-- File system holding the committed artifact bytes. -/
def wFS : String → FileState := fun q =>
  if q = "pco_storage/p.v" then .readable "Definition Foo." else .absent

/-- File system after tampering with the artifact. -/
def wFStam : String → FileState := fun q =>
  if q = "pco_storage/p.v" then .readable "Definition Foo. tampered" else .absent

/-- File system after deleting the artifact. -/
def wFSdel : String → FileState := fun _ => .absent

/-- The record the commit of `wSt` produces under `idH`. -/
def wRec : LedgerRecord :=
  { timestamp := "t0", use_case := "tax_compliance", proposition := "Foo",
    verifier := "coqc", hash := "Definition Foo.|||Foo",
    proof_file := "pco_storage/p.v", verification_status := "PASS" }

/-- The dashboard state after that commit. -/
def wSt2 : DashState :=
  { wSt with blockchain := [wRec] }

/-- A second state committing the byte-identical text under another name. -/
def wStB : DashState :=
  { blockchain := [], verification_passed := true,
    current_proof_file := some "pco_storage/q.v", current_proposition := "Bar" }

/-- File system for the second commit. -/
def wFSB : String → FileState := fun q =>
  if q = "pco_storage/q.v" then .readable "Definition Foo." else .absent

/-- The record of the second commit. -/
def wRecB : LedgerRecord :=
  { timestamp := "t1", use_case := "tax_compliance", proposition := "Bar",
    verifier := "coqc", hash := "Definition Foo.|||Bar",
    proof_file := "pco_storage/q.v", verification_status := "PASS" }

/-- The state after the second commit. -/
def wStB2 : DashState :=
  { wStB with blockchain := [wRecB] }

theorem countOpen_pair (r : List Char) : countOpen ('(' :: '*' :: r) = countOpen r + 1 := rfl

theorem countClose_pair (r : List Char) : countClose ('*' :: ')' :: r) = countClose r + 1 := rfl

theorem countOpen_cons_ne (c : Char) (rest : List Char) (h : c ≠ '(' ∨ rest.head? ≠ some '*') :
    countOpen (c :: rest) = countOpen rest := by
  rw [countOpen.eq_def]
  split
  · rename_i h3
    injection h3 with hc hr
    simp [hc, hr] at h
  · rename_i h2
    injection h2 with h3 h4
    rw [h4]
  · rename_i h2
    exact absurd h2 (List.cons_ne_nil _ _)

theorem countClose_cons_ne (c : Char) (rest : List Char) (h : c ≠ '*' ∨ rest.head? ≠ some ')') :
    countClose (c :: rest) = countClose rest := by
  rw [countClose.eq_def]
  split
  · rename_i h3
    injection h3 with hc hr
    simp [hc, hr] at h
  · rename_i h2
    injection h2 with h3 h4
    rw [h4]
  · rename_i h2
    exact absurd h2 (List.cons_ne_nil _ _)

theorem countOpen_append (s t : List Char) (ht : t.head? ≠ some '*') :
    countOpen (s ++ t) = countOpen s + countOpen t := by
  induction s using countOpen.induct with
  | case1 rest ih =>
    simp only [List.cons_append, countOpen_pair, ih]
    omega
  | case2 head rest hne ih =>
    have hd : head ≠ '(' ∨ (rest ++ t).head? ≠ some '*' := by
      by_cases hh : head = '('
      · right
        rcases rest with _ | ⟨x, xs⟩
        · simpa using ht
        · simp only [List.cons_append, List.head?_cons]
          intro hx
          exact hne xs hh (by simp at hx; rw [hx])
      · exact Or.inl hh
    have hd2 : head ≠ '(' ∨ rest.head? ≠ some '*' := by
      by_cases hh : head = '('
      · right
        rcases rest with _ | ⟨x, xs⟩
        · simp
        · simp only [List.head?_cons]
          intro hx
          exact hne xs hh (by simp at hx; rw [hx])
      · exact Or.inl hh
    simp only [List.cons_append, countOpen_cons_ne _ _ hd, countOpen_cons_ne _ _ hd2, ih]
  | case3 => simp [countOpen]

theorem countClose_append (s t : List Char) (ht : t.head? ≠ some ')') :
    countClose (s ++ t) = countClose s + countClose t := by
  induction s using countClose.induct with
  | case1 rest ih =>
    simp only [List.cons_append, countClose_pair, ih]
    omega
  | case2 head rest hne ih =>
    have hd : head ≠ '*' ∨ (rest ++ t).head? ≠ some ')' := by
      by_cases hh : head = '*'
      · right
        rcases rest with _ | ⟨x, xs⟩
        · simpa using ht
        · simp only [List.cons_append, List.head?_cons]
          intro hx
          exact hne xs hh (by simp at hx; rw [hx])
      · exact Or.inl hh
    have hd2 : head ≠ '*' ∨ rest.head? ≠ some ')' := by
      by_cases hh : head = '*'
      · right
        rcases rest with _ | ⟨x, xs⟩
        · simp
        · simp only [List.head?_cons]
          intro hx
          exact hne xs hh (by simp at hx; rw [hx])
      · exact Or.inl hh
    simp only [List.cons_append, countClose_cons_ne _ _ hd, countClose_cons_ne _ _ hd2, ih]
  | case3 => simp [countClose]

theorem countOpen_closers (k : Nat) : countOpen (closers k) = 0 := by
  induction k with
  | zero => rfl
  | succ n ih =>
    show countOpen ('*' :: ')' :: closers n) = 0
    rw [countOpen_cons_ne _ _ (Or.inl (by decide)),
        countOpen_cons_ne _ _ (Or.inl (by decide)), ih]

theorem countClose_closers (k : Nat) : countClose (closers k) = k := by
  induction k with
  | zero => rfl
  | succ n ih =>
    show countClose ('*' :: ')' :: closers n) = n + 1
    rw [countClose_pair, ih]

theorem fixCommentsL_idem (l : List Char) : fixCommentsL (fixCommentsL l) = fixCommentsL l := by
  unfold fixCommentsL
  by_cases h : countClose l < countOpen l
  · rw [if_pos h]
    have ho : countOpen (l ++ '\n' :: closers (countOpen l - countClose l)) = countOpen l := by
      rw [countOpen_append _ _ (by simp),
          countOpen_cons_ne _ _ (Or.inl (by decide)), countOpen_closers]
      omega
    have hc : countClose (l ++ '\n' :: closers (countOpen l - countClose l)) =
        countOpen l := by
      rw [countClose_append _ _ (by simp),
          countClose_cons_ne _ _ (Or.inl (by decide)), countClose_closers]
      omega
    rw [ho, hc, if_neg (by omega)]
  · rw [if_neg h, if_neg h]

theorem claudeLoop_spec (oracle : String → LlmAttempt) :
    ∀ (models : List (String × Nat)) (acc : List String) (le : Option String),
      (∀ att e, claudeLoop oracle models acc le = .exhausted att e →
        att = acc ++ models.map Prod.fst) ∧
      (∀ m t att, claudeLoop oracle models acc le = .success m t att →
        ∃ att0 suf, att = acc ++ att0 ∧ att0 ++ [m] ++ suf = models.map Prod.fst) ∧
      (∀ m msg att, claudeLoop oracle models acc le = .authAbort m msg att →
        ∃ att1 suf, att = acc ++ att1 ++ [m] ∧ att1 ++ [m] ++ suf = models.map Prod.fst ∧
          classifyError msg = .hardAuth ∧ oracle m = .err msg) := by
  intro models
  induction models with
  | nil =>
    intro acc le
    refine ⟨?_, ?_, ?_⟩
    · intro att e h
      simp only [claudeLoop] at h
      injection h with h1 h2
      simp [h1]
    · intro m t att h
      simp only [claudeLoop] at h
      exact absurd h (by simp)
    · intro m msg att h
      simp only [claudeLoop] at h
      exact absurd h (by simp)
  | cons hd rest ih =>
    obtain ⟨model, mt⟩ := hd
    intro acc le
    refine ⟨?_, ?_, ?_⟩
    · intro att e h
      cases ho : oracle model with
      | ok text =>
        simp only [claudeLoop, ho] at h
        exact absurd h (by simp)
      | err msg =>
        cases hc : classifyError msg with
        | hardAuth =>
          simp only [claudeLoop, ho, hc] at h
          exact absurd h (by simp)
        | softNotFound =>
          simp only [claudeLoop, ho, hc] at h
          simpa using ((ih (acc ++ [model]) (some msg)).1 att e h)
        | softConfig =>
          simp only [claudeLoop, ho, hc] at h
          simpa using ((ih (acc ++ [model]) (some msg)).1 att e h)
        | softOther =>
          simp only [claudeLoop, ho, hc] at h
          simpa using ((ih (acc ++ [model]) (some msg)).1 att e h)
    · intro m t att h
      cases ho : oracle model with
      | ok text =>
        simp only [claudeLoop, ho] at h
        injection h with h1 h2 h3
        exact ⟨[], rest.map Prod.fst, by simp [h3], by simp [h1]⟩
      | err msg =>
        cases hc : classifyError msg with
        | hardAuth =>
          simp only [claudeLoop, ho, hc] at h
          exact absurd h (by simp)
        | softNotFound =>
          simp only [claudeLoop, ho, hc] at h
          obtain ⟨att0, suf, ha, hb⟩ := ((ih (acc ++ [model]) (some msg)).2.1 m t att h)
          exact ⟨model :: att0, suf, by simp [ha], by simp [← hb]⟩
        | softConfig =>
          simp only [claudeLoop, ho, hc] at h
          obtain ⟨att0, suf, ha, hb⟩ := ((ih (acc ++ [model]) (some msg)).2.1 m t att h)
          exact ⟨model :: att0, suf, by simp [ha], by simp [← hb]⟩
        | softOther =>
          simp only [claudeLoop, ho, hc] at h
          obtain ⟨att0, suf, ha, hb⟩ := ((ih (acc ++ [model]) (some msg)).2.1 m t att h)
          exact ⟨model :: att0, suf, by simp [ha], by simp [← hb]⟩
    · intro m msg att h
      cases ho : oracle model with
      | ok text =>
        simp only [claudeLoop, ho] at h
        exact absurd h (by simp)
      | err msg2 =>
        cases hc : classifyError msg2 with
        | hardAuth =>
          simp only [claudeLoop, ho, hc] at h
          injection h with h1 h2 h3
          refine ⟨[], rest.map Prod.fst, by simp [← h3, h1], by simp [h1], ?_, ?_⟩
          · rw [← h2]
            exact hc
          · rw [← h1, ← h2]
            exact ho
        | softNotFound =>
          simp only [claudeLoop, ho, hc] at h
          obtain ⟨att1, suf, ha, hb, hcl, hor⟩ := ((ih (acc ++ [model]) (some msg2)).2.2 m msg att h)
          exact ⟨model :: att1, suf, by simp [ha], by simp [← hb], hcl, hor⟩
        | softConfig =>
          simp only [claudeLoop, ho, hc] at h
          obtain ⟨att1, suf, ha, hb, hcl, hor⟩ := ((ih (acc ++ [model]) (some msg2)).2.2 m msg att h)
          exact ⟨model :: att1, suf, by simp [ha], by simp [← hb], hcl, hor⟩
        | softOther =>
          simp only [claudeLoop, ho, hc] at h
          obtain ⟨att1, suf, ha, hb, hcl, hor⟩ := ((ih (acc ++ [model]) (some msg2)).2.2 m msg att h)
          exact ⟨model :: att1, suf, by simp [ha], by simp [← hb], hcl, hor⟩

/-- C3: Orchestrator fallback order. -/
theorem orchestratorFallbackOrder (oracle : String → LlmAttempt) :
    (∀ att le, callClaude oracle = .exhausted att le → att = modelNames) ∧
    (∀ m t att, callClaude oracle = .success m t att →
      ∃ suf, att ++ [m] ++ suf = modelNames) ∧
    (∀ m msg att, callClaude oracle = .authAbort m msg att →
      (∃ att1 suf, att = att1 ++ [m] ∧ att ++ suf = modelNames) ∧
      classifyError msg = .hardAuth ∧ oracle m = .err msg) := by
  obtain ⟨hex, hsucc, hauth⟩ := claudeLoop_spec oracle modelsToTry [] none
  refine ⟨?_, ?_, ?_⟩
  · intro att le h
    simpa [modelNames] using hex att le h
  · intro m t att h
    obtain ⟨att0, suf, ha, hb⟩ := hsucc m t att h
    simp only [List.nil_append] at ha
    exact ⟨suf, by rw [ha, hb]; rfl⟩
  · intro m msg att h
    obtain ⟨att1, suf, ha, hb, hcl, hor⟩ := hauth m msg att h
    simp only [List.nil_append] at ha
    refine ⟨⟨att1, suf, ha, ?_⟩, hcl, hor⟩
    rw [ha]
    simpa [modelNames] using hb

/-- Witness for C3 at a concrete oracle whose first candidate fails with
an authentication error: the loop aborts with exactly the first
candidate attempted. -/
theorem orchestratorFallbackOrder_witness :
    (∃ att1 suf, ["claude-3-5-sonnet-20241022"] = att1 ++ ["claude-3-5-sonnet-20241022"] ∧
      ["claude-3-5-sonnet-20241022"] ++ suf = modelNames) ∧
    classifyError "HTTP 401: authentication_error" = .hardAuth ∧
    c3Oracle "claude-3-5-sonnet-20241022" = .err "HTTP 401: authentication_error" :=
  (orchestratorFallbackOrder c3Oracle).2.2 "claude-3-5-sonnet-20241022"
    "HTTP 401: authentication_error" ["claude-3-5-sonnet-20241022"] (by decide)


theorem stringDataInj {a b : String} (h : a.data = b.data) : a = b := by
  cases a
  cases b
  exact congrArg String.mk (by simpa using h)

theorem combinedInjName {t n1 n2 : String}
    (h : t ++ "|||" ++ n1 = t ++ "|||" ++ n2) : n1 = n2 := by
  have hd := congrArg String.data h
  simp only [String.data_append, List.append_assoc] at hd
  exact stringDataInj (List.append_cancel_left (List.append_cancel_left hd))

theorem combinedInjContent {t1 t2 n : String}
    (h : t1 ++ "|||" ++ n = t2 ++ "|||" ++ n) : t1 = t2 := by
  have hd := congrArg String.data h
  simp only [String.data_append] at hd
  exact stringDataInj (List.append_cancel_right (List.append_cancel_right hd))

theorem recordToBlockchain_recorded (H : String → String) (st : DashState)
    (fs : String → FileState) (ts uc v : String) (st2 : DashState) (rec : LedgerRecord)
    (h : recordToBlockchain H st fs ts uc v = (st2, .recorded rec)) :
    ∃ pf t, st.current_proof_file = some pf ∧ fs pf = .readable t ∧
      rec.proof_file = pf ∧ rec.proposition = st.current_proposition ∧
      rec.hash = H (t ++ "|||" ++ st.current_proposition) ∧
      st2.blockchain = st.blockchain ++ [rec] ∧
      st.verification_passed = true := by
  unfold recordToBlockchain at h
  by_cases hv : st.verification_passed
  · simp only [hv, Bool.not_true, Bool.false_eq_true, if_false] at h
    cases hp : st.current_proof_file with
    | none => simp [hp] at h
    | some pf =>
      simp only [hp] at h
      cases hf : fs pf with
      | absent => simp [hf] at h
      | unreadable => simp [hf] at h
      | readable t =>
        simp only [hf] at h
        rw [Prod.mk.injEq] at h
        obtain ⟨h1, h2⟩ := h
        injection h2 with h3
        refine ⟨pf, t, rfl, hf, ?_, ?_, ?_, ?_, hv⟩
        · rw [← h3]
        · rw [← h3]
        · rw [← h3]
        · rw [← h1, ← h3]
  · simp [hv] at h

/-- C1: Round-trip of commit and audit.  Committing an artifact stores a
digest of the artifact text, the separator `"|||"` and the declaration
name; auditing the resulting record yields PASS/authentic while the file
still holds the committed bytes, the hash-mismatch FAIL when the bytes
changed (given an injective digest, the model of collision resistance),
and the file-not-found FAIL when the file is gone — reported as a
failure, never skipped. -/
theorem commitAuditRoundTrip (H : String → String) (hinj : Function.Injective H)
    (st : DashState) (fs : String → FileState) (ts uc v pf t : String)
    (st2 : DashState) (rec : LedgerRecord)
    (hp : st.current_proof_file = some pf)
    (hf : fs pf = .readable t)
    (hc : recordToBlockchain H st fs ts uc v = (st2, .recorded rec)) :
    (∀ fsA, fsA pf = .readable t →
      auditRecord H fsA (toRaw rec) = ("PASS", auditPassMsg)) ∧
    (∀ fsB t2, fsB pf = .readable t2 → t2 ≠ t →
      auditRecord H fsB (toRaw rec) =
        ("FAIL", auditMismatchMsg rec.hash (H (t2 ++ "|||" ++ rec.proposition)))) ∧
    (∀ fsC, fsC pf = .absent →
      auditRecord H fsC (toRaw rec) = ("FAIL", "Proof file not found: " ++ pf)) := by
  obtain ⟨pf2, t2, hp2, hf2, hrp, hrn, hrh, hbl, hvp⟩ :=
    recordToBlockchain_recorded H st fs ts uc v st2 rec hc
  rw [hp] at hp2
  injection hp2 with hpf
  rw [← hpf] at hf2
  rw [hf] at hf2
  injection hf2 with ht
  refine ⟨?_, ?_, ?_⟩
  · intro fsA hA
    simp only [auditRecord, toRaw, hrp, ← hpf, hA, hrn, hrh, ht]
    simp
  · intro fsB tB hB hneB
    have hneq : (H (tB ++ "|||" ++ st.current_proposition) ==
        H (t2 ++ "|||" ++ st.current_proposition)) = false := by
      rw [beq_eq_false_iff_ne]
      intro hEq
      apply hneB
      rw [ht]
      exact combinedInjContent (hinj hEq)
    simp only [auditRecord, toRaw, hrp, ← hpf, hB, hrn, hrh, ht, hneq]
    simp
  · intro fsC hC
    simp only [auditRecord, toRaw, hrp, ← hpf, hC]

/-- Witness for C1 at the identity digest: commit of a concrete artifact,
then audits against the untouched, tampered and deleted file. -/
theorem commitAuditRoundTrip_witness :
    auditRecord idH wFS (toRaw wRec) = ("PASS", auditPassMsg) ∧
    auditRecord idH wFStam (toRaw wRec) =
      ("FAIL", auditMismatchMsg wRec.hash
        (idH ("Definition Foo. tampered" ++ "|||" ++ wRec.proposition))) ∧
    auditRecord idH wFSdel (toRaw wRec) =
      ("FAIL", "Proof file not found: " ++ "pco_storage/p.v") := by
  have h := commitAuditRoundTrip idH (fun _ _ hab => hab) wSt wFS "t0" "tax_compliance"
    "coqc" "pco_storage/p.v" "Definition Foo." wSt2 wRec (by decide) (by decide) (by decide)
  exact ⟨h.1 wFS (by decide),
         h.2.1 wFStam "Definition Foo. tampered" (by decide) (by decide),
         h.2.2 wFSdel (by decide)⟩

/-- C7: Digest separates names.  Two commits of byte-identical artifact
text under distinct declaration names produce records with different
digests, because the digest covers the text, the separator and the name
(digest injectivity models collision resistance of SHA-256). -/
theorem digestSeparatesNames (H : String → String) (hinj : Function.Injective H)
    (stA stB : DashState) (fsA fsB : String → FileState)
    (tsA tsB ucA ucB vA vB pA pB t : String)
    (oA oB : DashState) (rA rB : LedgerRecord)
    (hpA : stA.current_proof_file = some pA) (hpB : stB.current_proof_file = some pB)
    (hfA : fsA pA = .readable t) (hfB : fsB pB = .readable t)
    (hcA : recordToBlockchain H stA fsA tsA ucA vA = (oA, .recorded rA))
    (hcB : recordToBlockchain H stB fsB tsB ucB vB = (oB, .recorded rB))
    (hne : stA.current_proposition ≠ stB.current_proposition) :
    rA.hash ≠ rB.hash := by
  obtain ⟨qA, uA, hqA, huA, _, _, hhA, _, _⟩ :=
    recordToBlockchain_recorded H stA fsA tsA ucA vA oA rA hcA
  obtain ⟨qB, uB, hqB, huB, _, _, hhB, _, _⟩ :=
    recordToBlockchain_recorded H stB fsB tsB ucB vB oB rB hcB
  rw [hpA] at hqA
  injection hqA with eA
  rw [← eA] at huA
  rw [hfA] at huA
  injection huA with e2A
  rw [hpB] at hqB
  injection hqB with eB
  rw [← eB] at huB
  rw [hfB] at huB
  injection huB with e2B
  rw [hhA, hhB, ← e2A, ← e2B]
  intro hEq
  exact hne (combinedInjName (hinj hEq))

/-- Witness for C7: byte-identical text committed under names `Foo` and
`Bar` yields the digests `Definition Foo.|||Foo` and
`Definition Foo.|||Bar` under the identity digest. -/
theorem digestSeparatesNames_witness : wRec.hash ≠ wRecB.hash :=
  digestSeparatesNames idH (fun _ _ hab => hab) wSt wStB wFS wFSB "t0" "t1"
    "tax_compliance" "tax_compliance" "coqc" "coqc" "pco_storage/p.v" "pco_storage/q.v"
    "Definition Foo." wSt2 wStB2 wRec wRecB (by decide) (by decide) (by decide)
    (by decide) (by decide) (by decide) (by decide)

/-- C8: Commit atomicity on an unreadable source.  If the artifact file
is missing or unreadable at the moment `record_to_blockchain` runs, the
call fails with the source-read error and returns the state unchanged:
no record is appended and the stored sequence is exactly what it was. -/
theorem commitAtomicOnUnreadableSource (H : String → String) (st : DashState)
    (fs : String → FileState) (ts uc v pf : String)
    (hv : st.verification_passed = true)
    (hp : st.current_proof_file = some pf)
    (hun : fs pf = .absent ∨ fs pf = .unreadable) :
    recordToBlockchain H st fs ts uc v = (st, .sourceError) := by
  unfold recordToBlockchain
  rcases hun with h | h <;> simp [hv, hp, h]

/-- Witness for C8: committing while the artifact file is absent fails
and leaves the ledger untouched. -/
theorem commitAtomicOnUnreadableSource_witness :
    recordToBlockchain idH wSt wFSdel "t0" "tax_compliance" "coqc" = (wSt, .sourceError) :=
  commitAtomicOnUnreadableSource idH wSt wFSdel "t0" "tax_compliance" "coqc"
    "pco_storage/p.v" (by decide) (by decide) (Or.inl (by decide))

/-- C10: Per-record audit is total.  For every record value — including
records with missing fields or an unreadable referenced file — the audit
returns a pair whose status is exactly PASS or FAIL; missing fields and
unreadable files are mapped to FAIL verdicts, never to an exception
escaping the function. -/
theorem auditRecordTotal (H : String → String) (fs : String → FileState) (r : RawRecord) :
    ((auditRecord H fs r).1 = "PASS" ∨ (auditRecord H fs r).1 = "FAIL") ∧
    (r.proof_file = none ∨ r.proposition = none ∨ r.hash = none →
      (auditRecord H fs r).1 = "FAIL") ∧
    (∀ pf, r.proof_file = some pf → fs pf = .unreadable →
      (auditRecord H fs r).1 = "FAIL") := by
  obtain ⟨opf, opr, oh⟩ := r
  rcases opf with _ | pf
  · refine ⟨Or.inr rfl, fun _ => rfl, ?_⟩
    intro pf h
    exact absurd h (by simp)
  · cases hfs : fs pf with
    | absent =>
      refine ⟨Or.inr (by simp [auditRecord, hfs]), fun _ => by simp [auditRecord, hfs], ?_⟩
      intro pf2 hpf2 hfs2
      injection hpf2 with e
      rw [← e] at hfs2
      rw [hfs] at hfs2
      exact absurd hfs2 (by simp)
    | unreadable =>
      exact ⟨Or.inr (by simp [auditRecord, hfs]), fun _ => by simp [auditRecord, hfs],
        fun _ _ _ => by simp [auditRecord, hfs]⟩
    | readable content =>
      have h3 : ∀ pf2, (some pf = some pf2) → fs pf2 = .unreadable →
          ((auditRecord H fs ⟨some pf, opr, oh⟩).1 = "FAIL") := by
        intro pf2 hpf2 hfs2
        injection hpf2 with e
        rw [← e] at hfs2
        rw [hfs] at hfs2
        exact absurd hfs2 (by simp)
      rcases opr with _ | prop
      · exact ⟨Or.inr (by simp [auditRecord, hfs]), fun _ => by simp [auditRecord, hfs], h3⟩
      · rcases oh with _ | stored
        · exact ⟨Or.inr (by simp [auditRecord, hfs]), fun _ => by simp [auditRecord, hfs], h3⟩
        · cases hb : (H (content ++ "|||" ++ prop) == stored) with
          | true =>
            refine ⟨Or.inl (by simp [auditRecord, hfs, hb]), ?_, h3⟩
            intro hmiss
            rcases hmiss with h | h | h <;> exact absurd h (by simp)
          | false =>
            refine ⟨Or.inr (by simp [auditRecord, hfs, hb]), ?_, h3⟩
            intro hmiss
            rcases hmiss with h | h | h <;> exact absurd h (by simp)

/-- Witness for C10: auditing a record with every field missing yields a
FAIL verdict rather than an exception. -/
theorem auditRecordTotal_witness :
    (auditRecord idH wFSdel ⟨none, none, none⟩).1 = "FAIL" :=
  (auditRecordTotal idH wFSdel ⟨none, none, none⟩).2.1 (Or.inl rfl)

/-- C9: Pipeline stage ordering.  A missing API key ends the run before
any stage; a generation failure ends the run after the generation stage
with verification never attempted; every outcome other than a verifier
pass leaves `verification_passed` false; and `record_to_blockchain`
refuses to touch the ledger whenever `verification_passed` is false, so
the commit path is reachable only from a state whose current artifact
passed verification. -/
theorem pipelineStageOrdering (st : DashState) (apiKey : String)
    (gen : Except String (String × String)) (path : String) (ver : ProcResult) :
    (apiKey = "" → (executePipeline st apiKey gen path ver).2.1 = []) ∧
    (∀ e, gen = .error e →
      Stage.verification ∉ (executePipeline st apiKey gen path ver).2.1 ∧
      (apiKey ≠ "" → (executePipeline st apiKey gen path ver).2.1 = [Stage.generation])) ∧
    ((executePipeline st apiKey gen path ver).2.2 ≠ PipeOutcome.verPass →
      (executePipeline st apiKey gen path ver).1.verification_passed = false) ∧
    (∀ H fs ts uc v (stAny : DashState), stAny.verification_passed = false →
      recordToBlockchain H stAny fs ts uc v = (stAny, .notVerified)) := by
  refine ⟨?_, ?_, ?_, ?_⟩
  · intro hk
    simp [executePipeline, hk]
  · intro e he
    by_cases hk : apiKey = ""
    · constructor
      · simp [executePipeline, hk]
      · intro hk2
        exact absurd hk hk2
    · constructor
      · simp [executePipeline, hk, he]
      · intro _
        simp [executePipeline, hk, he]
  · by_cases hk : apiKey = ""
    · intro _
      simp [executePipeline, hk]
    · cases gen with
      | error e =>
        intro _
        simp [executePipeline, hk]
      | ok pr =>
        obtain ⟨c, prop⟩ := pr
        cases ver with
        | completed rc out err =>
          by_cases hrc : (rc == 0) = true
          · intro hout
            exact absurd (by simp [executePipeline, hk, hrc]) hout
          · intro _
            simp [executePipeline, hk, hrc]
        | timeoutExpired =>
          intro _
          simp [executePipeline, hk]
        | fileNotFound =>
          intro _
          simp [executePipeline, hk]
        | otherError m =>
          intro _
          simp [executePipeline, hk]
  · intro H fs ts uc v stAny hvp
    unfold recordToBlockchain
    simp [hvp]

/-- Witness for C9: a run whose generation fails never reaches the
verification stage, and a state with failed verification cannot commit. -/
theorem pipelineStageOrdering_witness :
    Stage.verification ∉
      (executePipeline wSt "key" (Except.error "Claude API error") "p.v"
        (ProcResult.completed 0 "" "")).2.1 ∧
    recordToBlockchain idH { wSt with verification_passed := false } wFS "t0"
      "tax_compliance" "coqc" = ({ wSt with verification_passed := false }, .notVerified) := by
  have h := pipelineStageOrdering wSt "key" (Except.error "Claude API error") "p.v"
    (ProcResult.completed 0 "" "")
  exact ⟨(h.2.1 "Claude API error" rfl).1,
         h.2.2.2 idH wFS "t0" "tax_compliance" "coqc"
           { wSt with verification_passed := false } rfl⟩

/-- Counterexample to C2: the pipeline's verifier invocation accepts a
run that exits 0 while writing the internal-failure marker `"Error:"` to
standard error — the code sets `passed` from the exit code alone, where
the claim requires `passed=false` (`CheckerRejected`). -/
theorem pipelineAcceptsDespiteStderrMarker :
    pipelineVerifyPassed (.completed 0 "" "Error: internal failure") = true ∧
    containsSub "Error: internal failure" "Error:" = true ∧
    specPassedC2 0 "Error: internal failure" = false := by decide

/-- C2 amended: in the dashboard pipeline the outcome is passed iff the
verifier exits 0, regardless of stderr (exception paths never pass);
only the standalone `run_coq` script implements the marker rule, and it
applies the marker test to the concatenation of stdout and stderr, not
to stderr alone. -/
theorem verifierAcceptanceAmended :
    (∀ rc out err, pipelineVerifyPassed (ProcResult.completed rc out err) = (rc == 0)) ∧
    pipelineVerifyPassed ProcResult.timeoutExpired = false ∧
    pipelineVerifyPassed ProcResult.fileNotFound = false ∧
    (∀ m, pipelineVerifyPassed (ProcResult.otherError m) = false) ∧
    (∀ rc out err, (runCoq rc out err).1 = "PASS" ↔
      (rc = 0 ∧ containsSub (out ++ err) "Error:" = false)) := by
  refine ⟨fun _ _ _ => rfl, rfl, rfl, fun _ => rfl, ?_⟩
  intro rc out err
  unfold runCoq
  by_cases h1 : rc = 0
  · by_cases h2 : containsSub (out ++ err) "Error:" = true
    · simp [h1, h2]
    · simp [h1, h2]
  · simp [h1]

/-- Counterexample to C4: on the specification's scenario input the
sanitized text is `"Declare Foo."` as claimed, but the extracted name is
the fallback `"unknown_proposition"`, not `"Foo"` — `Declare` is not
among the name-extraction keywords `Theorem|Definition|Lemma`. -/
theorem sanitizerScenarioNameCounterexample :
    sanitize c4Raw = "Declare Foo." ∧
    extractProposition (sanitize c4Raw) = "unknown_proposition" ∧
    extractProposition (sanitize c4Raw) ≠ "Foo" := by decide

/-- C4 amended: the scenario text sanitizes to the inner fenced content,
but the artifact name comes from the first `Theorem|Definition|Lemma`
match; with keyword `Declare` it falls back to the fixed default
`"unknown_proposition"`, while the same scenario written with
`Definition` yields the name `"Foo"`. -/
theorem sanitizerScenarioAmended :
    sanitize c4Raw = "Declare Foo." ∧
    extractProposition (sanitize c4Raw) = "unknown_proposition" ∧
    sanitize c4RawDefn = "Definition Foo." ∧
    extractProposition (sanitize c4RawDefn) = "Foo" := by decide

/-- Counterexample to C5: sanitization is not idempotent.  On
`"Require Import\nCoq.Coq.X."` the first pass yields
`"From Stdlib Require Import Coq.X."`, and a second pass rewrites the
surviving deprecated import again, giving a different string. -/
theorem sanitizeNotIdempotent :
    sanitize (sanitize c5Input) ≠ sanitize c5Input := by decide

/-- C5 amended: the comment-repair pass is idempotent on every input,
and sanitization is idempotent on the specification's scenario input,
but the deprecated-import rewriting makes the full transform
non-idempotent in general. -/
theorem sanitizerIdempotenceAmended :
    (∀ s : String, fixComments (fixComments s) = fixComments s) ∧
    sanitize (sanitize c4Raw) = sanitize c4Raw :=
  ⟨fun s => congrArg String.mk (fixCommentsL_idem s.data), by decide⟩

/-- Counterexample to C6: after the substitution pass the output can
still contain a deprecated `Require Import Coq.` occurrence — each
`re.sub` is a single left-to-right pass that never rescans its own
replacement, not a fixed-point iteration. -/
theorem deprecatedRewriteNotFixedPoint :
    subP1 (sanitize c5Input) ≠ sanitize c5Input ∧
    containsSub (sanitize c5Input) "Require Import Coq." = true := by decide

/-- C6 amended: each substitution is applied in one left-to-right
`re.sub` pass (all non-overlapping matches replaced, replacements not
rescanned), so a compound occurrence whose module path itself starts
with `Coq.` survives the pass; text preceding a match, including
indentation, is copied unchanged. -/
theorem deprecatedRewriteAmended :
    sanitize c5Input = "From Stdlib Require Import Coq.X." ∧
    containsSub (sanitize c5Input) "Require Import Coq." = true ∧
    subP1 "  Require Import Coq.ZArith.ZArith." =
      "  From Stdlib Require Import ZArith.ZArith." := by decide
